import Mathlib

/-!
Verification of the mcp-taskwarrior-ai core (intent classification, command
synthesis, context detection, output normalization) against its
natural-language specification.

The TypeScript sources `src/index.ts` and `src/context.ts` are shallowly
embedded below.  JavaScript strings are modelled as Lean `String`
(lists of characters); JavaScript regular-expression operations used by the
code are modelled by explicit character-list scanners with the same
semantics; the filesystem, the version-control client and `JSON.parse` are
modelled by an explicit environment record `FS`, and code that can throw is
modelled in `Except Unit`.
-/

namespace McpTw

/-- JavaScript truthiness of an optional string field: `undefined` and the
empty string are falsy. -/
def jsTruthy : Option String → Bool
  | some s => !(s == "")
  | none => false

/-- The string value of an optional field (empty when absent); only ever
read under a `jsTruthy` guard. -/
def getStr : Option String → String
  | some s => s
  | none => ""

/-- `leadsWith sub l` : `sub` is an initial segment of `l`. -/
def leadsWith : List Char → List Char → Bool
  | [], _ => true
  | _ :: _, [] => false
  | a :: as, b :: bs => a == b && leadsWith as bs

/-- `occursIn sub l` : `sub` occurs contiguously somewhere in `l`. -/
def occursIn : List Char → List Char → Bool
  | sub, [] => sub.isEmpty
  | sub, c :: cs => leadsWith sub (c :: cs) || occursIn sub cs

/-- Model of JavaScript `s.includes(sub)`. -/
def jsIncludes (s sub : String) : Bool :=
  occursIn sub.data s.data

/-- Model of JavaScript `String.prototype.trim`: strip leading and trailing
whitespace. -/
def jsTrim (s : String) : String :=
  ⟨((s.data.dropWhile Char.isWhitespace).reverse.dropWhile Char.isWhitespace).reverse⟩

/-- Split a character list at every occurrence of a separator character;
model of JavaScript `s.split(sep)` for a one-character separator. -/
def splitOnChar (sep : Char) : List Char → List (List Char)
  | [] => [[]]
  | c :: cs =>
    let r := splitOnChar sep cs
    if c == sep then [] :: r
    else
      match r with
      | h :: t => (c :: h) :: t
      | [] => [[c]]

/-- Model of JavaScript `s.split('\n')` returning strings. -/
def jsSplitLines (s : String) : List String :=
  (splitOnChar '\n' s.data).map (fun l => ⟨l⟩)

/-- Model of node `path.join(a, b)` as used on the repository's
workspace-relative paths. -/
def joinPath (a b : String) : String :=
  if a == "" then b else a ++ "/" ++ b

/-- Model of `s.split('/').pop() || 'general'`: the last slash-separated
component of a path, with the literal default label for a falsy component. -/
def lastComponentOr (s : String) : String :=
  match (splitOnChar '/' s.data).getLast? with
  | some x => if x.isEmpty then "general" else ⟨x⟩
  | none => "general"

/-- Model of `ContextManager.executeCommand`: the trimmed stdout of the child
process on success, the empty string on any failure (the internal
`try/catch` means this helper never throws). -/
def execCmdResult : Option String → String
  | some out => jsTrim out
  | none => ""

/-- Model of `/^[A-Z]+-\d+/.test(s)`: one or more ASCII uppercase letters,
a hyphen, then at least one ASCII digit, at the start of the string. -/
def ticketCodeTest (s : String) : Bool :=
  let up := s.data.takeWhile Char.isUpper
  let rest := s.data.drop up.length
  !up.isEmpty &&
    (match rest with
     | '-' :: r =>
       (match r with
        | d :: _ => d.isDigit
        | [] => false)
     | _ => false)

/-- The `ProjectContext` interface of `src/context.ts`: four optional string
fields. -/
structure ProjectContext where
  currentTicket : Option String := none
  currentProject : Option String := none
  workspacePath : Option String := none
  ticketsPath : Option String := none
deriving DecidableEq, Repr

/-- Environment record: the filesystem, version-control and JSON state the
embedded code observes.  `readFileRes p = none` means `readFile(p)` rejects
(e.g. the file exists but cannot be read); `gitToplevelRaw`/`gitBranchRaw`
are the raw stdout of the two git commands (`none` = command failed);
`parseStateTicket c` abstracts `JSON.parse(c).currentFocus?.ticket`:
`none` = `JSON.parse` throws, `some none` = no truthy ticket field,
`some (some t)` = a truthy ticket string `t`. -/
structure FS where
  cwd : String
  fsExists : String → Bool
  readFileRes : String → Option String
  gitToplevelRaw : Option String
  gitBranchRaw : Option String
  parseStateTicket : String → Option (Option String)

/-- Stage 1 of `detectContext` (`src/context.ts` lines 18-47): project
identity from the `.taskproject` marker file, else the git toplevel, else
the basename of the working directory.  The marker-file read is not guarded
by any `try`, so a marker that exists but cannot be read makes the whole
call reject, modelled as `Except.error`. -/
def detectStage1 (fs : FS) (ctx : ProjectContext) : Except Unit ProjectContext :=
  let cwd := fs.cwd
  let projectFilePath := joinPath cwd ".taskproject"
  if fs.fsExists projectFilePath then
    match fs.readFileRes projectFilePath with
    | none => Except.error ()
    | some content =>
      Except.ok { ctx with
        currentProject := some (jsTrim content),
        workspacePath := some cwd,
        ticketsPath := some (joinPath cwd ".tickets") }
  else
    let result := execCmdResult fs.gitToplevelRaw
    if !(result == "") then
      let repoPath := jsTrim result
      Except.ok { ctx with
        currentProject := some (lastComponentOr repoPath),
        workspacePath := some repoPath,
        ticketsPath := some (joinPath repoPath ".tickets") }
    else
      Except.ok { ctx with
        currentProject := some (lastComponentOr cwd),
        workspacePath := some cwd }

/-- The path of the JSON state file probed by `detectContext`
(`join(this.context.workspacePath || cwd, '.task-state.json')`). -/
def statePath (fs : FS) (ctx : ProjectContext) : String :=
  joinPath (if jsTruthy ctx.workspacePath then getStr ctx.workspacePath else fs.cwd)
    ".task-state.json"

/-- Stage 2(a) of `detectContext` (lines 50-61): the ticket from the JSON
state file; every failure inside the surrounding `try` contributes
nothing. -/
def detectStage2a (fs : FS) (ctx : ProjectContext) : ProjectContext :=
  if fs.fsExists (statePath fs ctx) then
    match fs.readFileRes (statePath fs ctx) with
    | none => ctx
    | some content =>
      match fs.parseStateTicket content with
      | none => ctx
      | some none => ctx
      | some (some t) => { ctx with currentTicket := some t }
  else ctx

/-- Stage 2(b) of `detectContext` (lines 64-71): the ticket from the current
git branch when it matches the ticket-code pattern; `executeCommand` never
throws, so this stage never fails. -/
def detectStage2b (fs : FS) (ctx : ProjectContext) : ProjectContext :=
  let branch := execCmdResult fs.gitBranchRaw
  if !(branch == "") && ticketCodeTest branch then
    { ctx with currentTicket := some (jsTrim branch) }
  else ctx

/-- `ContextManager.detectContext` (`src/context.ts` lines 15-74): stage 1,
then the state-file ticket, then the branch ticket, in that order. -/
def detectContext (fs : FS) (ctx : ProjectContext) : Except Unit ProjectContext :=
  (detectStage1 fs ctx).map (fun c => detectStage2b fs (detectStage2a fs c))

/-- `ContextManager.setCurrentTicket` (lines 139-141): stores its argument
verbatim. -/
def setCurrentTicket (ctx : ProjectContext) (ticket : String) : ProjectContext :=
  { ctx with currentTicket := some ticket }

/-- `ContextManager.formatTaskwarriorProject` (lines 153-161): the scoping
fallback chain. -/
def formatTaskwarriorProject (ctx : ProjectContext) : String :=
  if jsTruthy ctx.currentTicket then getStr ctx.currentTicket
  else if jsTruthy ctx.currentProject then getStr ctx.currentProject
  else "general"

/-- `ContextManager.enhanceTaskDescription` (lines 164-179); the
`parts.join(' ')` of the source is rendered by appending each optional part
with a single separating space. -/
def enhanceTaskDescription (ctx : ProjectContext) (description : String) : String :=
  let withTicket :=
    if jsTruthy ctx.currentTicket && !(jsIncludes description (getStr ctx.currentTicket)) then
      description ++ " +" ++ getStr ctx.currentTicket
    else description
  if jsTruthy ctx.currentProject && !(jsIncludes description "project:") then
    withTicket ++ " project:" ++ getStr ctx.currentProject
  else withTicket

/-- Checklist extraction in `getTicketTasks` (lines 99-105): each line of
the checklist file matching `/^- \[ \] (.+)/` yields its captured text
(the line after the six-character marker, untrimmed). -/
def checklistTasks (content : String) : List String :=
  (jsSplitLines content).filterMap (fun line =>
    if leadsWith "- [ ] ".data line.data && decide (6 < line.data.length) then
      some ⟨line.data.drop 6⟩
    else none)

/-- Character class `[:\s]` of the TODO regex. -/
def isClassChar (c : Char) : Bool :=
  c == ':' || c.isWhitespace

/-- Case-insensitive test for the literal `TODO` at the head of a character
list (the `i` flag of the TODO regex). -/
def startsTODO : List Char → Bool
  | a :: b :: c :: d :: _ =>
    a.toLower == 't' && b.toLower == 'o' && c.toLower == 'd' && d.toLower == 'o'
  | _ => false

/-- The `[:\s]+(.+)` tail of one attempted TODO match: `cs` is the text
after the four `TODO` characters.  On success, returns the captured group
and the remaining text (scanning resumes there).  `[:\s]+` is greedy and
may consume newlines; `(.+)` matches at least one non-newline character.
When the greedy run reaches the end of the input the engine backtracks,
so the capture becomes the last non-newline character of the run provided
at least one class character stays consumed. -/
def todoTail (cs : List Char) : Option (List Char × List Char) :=
  let run := cs.takeWhile isClassChar
  let rest := cs.dropWhile isClassChar
  if run.isEmpty then none
  else
    match rest with
    | _ :: _ =>
      let cap := rest.takeWhile (fun c => !(c == '\n'))
      some (cap, rest.drop cap.length)
    | [] =>
      match run.reverse.dropWhile (fun c => c == '\n') with
      | [] => none
      | y :: ys =>
        if ys.isEmpty then none
        else some ([y], (run.reverse.takeWhile (fun c => c == '\n')).reverse)

/-- The scan of `content.matchAll(/TODO[:\s]+(.+)/gi)` (lines 113-116):
leftmost, non-overlapping matches; each captured group is trimmed and
pushed.  Fuel-based recursion: every recursive call strictly shrinks the
scanned list (an unmatched position advances one character, a match
consumes the marker, at least one class character and at least one captured
character), so fuel `length + 1` never runs out. -/
def todoScanFuel : Nat → List Char → List String
  | 0, _ => []
  | _ + 1, [] => []
  | fuel + 1, c :: cs =>
    if startsTODO (c :: cs) then
      match todoTail (cs.drop 3) with
      | some (cap, rest) => jsTrim ⟨cap⟩ :: todoScanFuel fuel rest
      | none => todoScanFuel fuel cs
    else todoScanFuel fuel cs

/-- All TODO items extracted from the notes file by the global
case-insensitive scan. -/
def todoTasks (content : String) : List String :=
  todoScanFuel (content.data.length + 1) content.data

/-- `ContextManager.getTicketTasks` (lines 89-120).  Each file read follows
an `exists` check but is itself unguarded, so an existing yet unreadable
file rejects (`Except.error`). -/
def getTicketTasks (fs : FS) (ctx : ProjectContext) (ticket : String) :
    Except Unit (List String) :=
  if !(jsTruthy ctx.ticketsPath) then Except.ok []
  else
    let ticketPath := joinPath (getStr ctx.ticketsPath) ticket
    let checklistPath := joinPath ticketPath "mr-checklist.md"
    let step1 : Except Unit (List String) :=
      if fs.fsExists checklistPath then
        match fs.readFileRes checklistPath with
        | none => Except.error ()
        | some content => Except.ok (checklistTasks content)
      else Except.ok []
    match step1 with
    | Except.error e => Except.error e
    | Except.ok tasks1 =>
      let contextPath := joinPath ticketPath "context.md"
      if fs.fsExists contextPath then
        match fs.readFileRes contextPath with
        | none => Except.error ()
        | some content => Except.ok (tasks1 ++ todoTasks content)
      else Except.ok tasks1

/-- Reading of the spec's words for the notes-file extraction, used to
compare with the implementation: a line yields one task text when the TODO
marker scan succeeds within that single line ("lines matching a TODO
marker, each yielding one task text"; the notes file holds "lines
containing `TODO:` or `TODO ` followed by text"). -/
def specTodoLineTasks (content : String) : List String :=
  (jsSplitLines content).flatMap (fun line =>
    todoScanFuel (line.data.length + 1) line.data)

/-- The ordered trigger table `TASK_PATTERNS` of `src/index.ts` (lines
24-33): intent names paired with the lowercase alternatives of their
case-insensitive anchored patterns, in declaration order. -/
def TASK_PATTERNS : List (String × List String) :=
  [("add", ["add", "create", "new", "make", "todo", "task"]),
   ("list", ["list", "show", "what", "tasks", "todos"]),
   ("complete", ["done", "complete", "finish", "mark", "check"]),
   ("modify", ["modify", "change", "update", "edit"]),
   ("delete", ["delete", "remove", "rm"]),
   ("prioritize", ["prioritize", "priority", "urgent", "important"]),
   ("context", ["where", "context", "project", "current"]),
   ("next", ["next", "now", "focus", "immediate"])]

/-- Case-insensitive match of a lowercase word at the head of a query
(one alternative of an anchored `/^(...)/i` pattern). -/
def ciMatchesAt : List Char → List Char → Bool
  | [], _ => true
  | _ :: _, [] => false
  | w :: ws, q :: qs => q.toLower == w && ciMatchesAt ws qs

/-- `pattern.test(input)` for one trigger pattern: some alternative matches
at the start of the query. -/
def patternTest (words : List String) (q : String) : Bool :=
  words.any (fun w => ciMatchesAt w.data q.data)

/-- `input.replace(pattern, '').trim()`: JavaScript alternation is
leftmost-first, so the first listed alternative matching at the start is
removed, then the result is trimmed.  When no alternative matches the
input is returned unchanged (the branch is unreachable in `classify`). -/
def stripMatch (words : List String) (q : String) : String :=
  match words.find? (fun w => ciMatchesAt w.data q.data) with
  | some w => jsTrim ⟨q.data.drop w.data.length⟩
  | none => q

/-- A classified request: the intent tag and the residual text. -/
structure ParsedRequest where
  action : String
  args : String
deriving DecidableEq, Repr

/-- The intent-classification loop of `parseNaturalLanguage` (lines 57-66):
first trigger in declaration order whose pattern matches wins; no match
defaults to `list` with the input unchanged. -/
def classify (input : String) : ParsedRequest :=
  match TASK_PATTERNS.find? (fun p => patternTest p.2 input) with
  | some p => ⟨p.1, stripMatch p.2 input⟩
  | none => ⟨"list", input⟩

/-- A synthesized external-tool invocation: verb and argument string. -/
structure SynthesizedCommand where
  action : String
  args : String
deriving DecidableEq, Repr

/-- The project-scope filter of `parseNaturalLanguage` (line 70):
`project:<currentProject>` when `currentProject` is truthy, else empty. -/
def projectFilter (ctx : ProjectContext) : String :=
  if jsTruthy ctx.currentProject then "project:" ++ getStr ctx.currentProject else ""

/-- Leftmost maximal digit run: model of `args.match(/\d+/)`. -/
def firstDigitRunAux : List Char → Option (List Char)
  | [] => none
  | c :: cs =>
    if c.isDigit then some (c :: cs.takeWhile Char.isDigit)
    else firstDigitRunAux cs

/-- The first integer token of a string, when any digit is present. -/
def firstDigitRun (s : String) : Option String :=
  (firstDigitRunAux s.data).map (fun l => ⟨l⟩)

/-- Model of `args.match(/project[: ](\S+)/i)`: leftmost occurrence of the
literal `project` (case-insensitive) followed by `:` or a space and at
least one non-whitespace character; returns the captured token. -/
def projectArgAux : List Char → Option (List Char)
  | [] => none
  | c :: cs =>
    (if ciMatchesAt "project".data (c :: cs) then
      match (c :: cs).drop 7 with
      | d :: rest =>
        if d == ':' || d == ' ' then
          let tok := rest.takeWhile (fun x => !x.isWhitespace)
          if tok.isEmpty then none else some tok
        else none
      | [] => none
     else none).orElse (fun _ => projectArgAux cs)

/-- Capture of the explicit-project cue, as a string. -/
def projectArgMatch (s : String) : Option String :=
  (projectArgAux s.data).map (fun l => ⟨l⟩)

/-- The command-synthesis switch of `parseNaturalLanguage` (lines 73-106),
as a pure function of the classified action, the residual text and the
detected context. -/
def synthesize (action args : String) (ctx : ProjectContext) : SynthesizedCommand :=
  if action == "add" then ⟨"add", args⟩
  else if action == "list" then
    let listArgs :=
      if jsIncludes args "today" || jsIncludes args "now" then
        jsTrim ("due:today " ++ projectFilter ctx)
      else if jsIncludes args "urgent" || jsIncludes args "high" then
        jsTrim ("priority:H " ++ projectFilter ctx)
      else if jsIncludes args "project" then
        match projectArgMatch args with
        | some tok => "project:" ++ tok
        | none => ""
      else projectFilter ctx
    ⟨"list", listArgs⟩
  else if action == "complete" then
    match firstDigitRun args with
    | some d => ⟨"done", d⟩
    | none => ⟨"done", "1"⟩
  else if action == "next" then ⟨"next", projectFilter ctx⟩
  else if action == "context" then
    if !(args == "") then ⟨"context", args⟩ else ⟨"context", "list"⟩
  else ⟨action, args⟩

/-- `TaskwarriorBridge.parseNaturalLanguage` (lines 55-107): classify, run
context detection, then synthesize.  Rejects exactly when `detectContext`
rejects. -/
def parseNaturalLanguage (fs : FS) (ctx : ProjectContext) (input : String) :
    Except Unit SynthesizedCommand :=
  let pr := classify input
  (detectContext fs ctx).map (fun c => synthesize pr.action pr.args c)

/-- Model of `/^\s*ID\s+/.test(line)`: optional leading whitespace, the
literal `ID`, then at least one whitespace character. -/
def headerTest (line : String) : Bool :=
  match line.data.dropWhile Char.isWhitespace with
  | 'I' :: 'D' :: c :: _ => c.isWhitespace
  | _ => false

/-- Model of `/^\s*\d+\s+/.test(line)`: optional leading whitespace, at
least one digit, then at least one whitespace character. -/
def numRowTest (line : String) : Bool :=
  let l := line.data.dropWhile Char.isWhitespace
  let ds := l.takeWhile Char.isDigit
  !ds.isEmpty &&
    (match l.drop ds.length with
     | c :: _ => c.isWhitespace
     | [] => false)

/-- The row-collection loop of `formatOutput` (lines 115-129): a header
line turns collection on and is skipped; once collecting, numeric rows are
pushed trimmed; before any header, a line containing `tasks` stops the
whole loop. -/
def collectLoop : List String → Bool → List String
  | [], _ => []
  | line :: rest, inTaskList =>
    if headerTest line then collectLoop rest true
    else if inTaskList then
      if numRowTest line then jsTrim line :: collectLoop rest true
      else collectLoop rest true
    else if jsIncludes line "tasks" then []
    else collectLoop rest false

/-- The task rows collected by `formatOutput` from a raw output: non-blank
lines fed through the collection loop. -/
def collectedRows (output : String) : List String :=
  collectLoop ((jsSplitLines output).filter (fun l => !(jsTrim l == ""))) false

/-- `TaskwarriorBridge.formatOutput` (lines 109-137). -/
def formatOutput (output action : String) : String :=
  if action == "list" || action == "next" then
    let tasks := collectedRows output
    if 0 < tasks.length then "Current tasks:\n" ++ String.intercalate "\n" tasks
    else output
  else output

/-- Boolean success test for the `Except`-modelled operations. -/
def isOkE {α : Type} : Except Unit α → Bool
  | Except.ok _ => true
  | Except.error _ => false

/-- One Context field is absent or a non-empty string (the invariant stated
by the spec's data model). -/
def fieldOkB : Option String → Bool
  | none => true
  | some s => !(s == "")

/-- The spec's Context invariant: every field is absent or non-empty. -/
def ctxInvariantB (c : ProjectContext) : Bool :=
  fieldOkB c.currentTicket && fieldOkB c.currentProject &&
    fieldOkB c.workspacePath && fieldOkB c.ticketsPath

/-- Environment for the C1 counterexample: an empty-after-trim marker file
and a ticket-code git branch, so detection yields a ticket but an empty
`currentProject`. -/
def fsC1 : FS where
  cwd := "w"
  fsExists := fun p => p == "w/.taskproject"
  readFileRes := fun p => if p == "w/.taskproject" then some " " else none
  gitToplevelRaw := none
  gitBranchRaw := some "DRX-1"
  parseStateTicket := fun _ => none

/-- The context detected in the C1 counterexample environment. -/
def ctxC1 : ProjectContext := ⟨some "DRX-1", some "", some "w", some "w/.tickets"⟩

/-- Environment for the C2 counterexample: the marker file exists but every
read rejects. -/
def fsC2x : FS where
  cwd := "w2"
  fsExists := fun p => p == "w2/.taskproject"
  readFileRes := fun _ => none
  gitToplevelRaw := none
  gitBranchRaw := none
  parseStateTicket := fun _ => none

/-- Environment for the C2 witness: nothing on disk, no VCS. -/
def fsC2w : FS where
  cwd := "h"
  fsExists := fun _ => false
  readFileRes := fun _ => none
  gitToplevelRaw := none
  gitBranchRaw := none
  parseStateTicket := fun _ => none

/-- Environment for the C6 witness: a git repository with untrimmed
toplevel output and a ticket-code branch. -/
def fsC6w : FS where
  cwd := "home"
  fsExists := fun _ => false
  readFileRes := fun _ => none
  gitToplevelRaw := some " /r/repo "
  gitBranchRaw := some "DRX-9"
  parseStateTicket := fun _ => none

/-- Environment for the C6 counterexample: a marker file whose contents trim
to the empty string. -/
def fsC6x : FS where
  cwd := "w6"
  fsExists := fun p => p == "w6/.taskproject"
  readFileRes := fun p => if p == "w6/.taskproject" then some "  " else none
  gitToplevelRaw := none
  gitBranchRaw := none
  parseStateTicket := fun _ => none

/-- Environment for the C7 counterexample: only a notes file whose TODO
marker sits at the end of a line, capturing the following line. -/
def fsC7x : FS where
  cwd := "x"
  fsExists := fun p => p == "tp/T/context.md"
  readFileRes := fun p => if p == "tp/T/context.md" then some "a TODO:\nb" else none
  gitToplevelRaw := none
  gitBranchRaw := none
  parseStateTicket := fun _ => none

/-- Environment for the C7 witness: a two-item checklist and a one-TODO
notes file. -/
def fsC7w : FS where
  cwd := "x"
  fsExists := fun p => p == "tp/T/mr-checklist.md" || p == "tp/T/context.md"
  readFileRes := fun p =>
    if p == "tp/T/mr-checklist.md" then some "- [ ] A\n- [ ] B"
    else if p == "tp/T/context.md" then some "TODO: C" else none
  gitToplevelRaw := none
  gitBranchRaw := none
  parseStateTicket := fun _ => none

/-- Environment for the C8 witness: a state file naming ticket `OLD-1` and
a branch named `DRX-99`. -/
def fsC8w : FS where
  cwd := "w8"
  fsExists := fun p => p == "w8/.task-state.json"
  readFileRes := fun p => if p == "w8/.task-state.json" then some "S" else none
  gitToplevelRaw := none
  gitBranchRaw := some "DRX-99"
  parseStateTicket := fun c => if c == "S" then some (some "OLD-1") else none

/-! ### General lemmas about the string model -/

theorem data_append (a b : String) : (a ++ b).data = a.data ++ b.data := rfl

theorem mk_data (l : List Char) : (⟨l⟩ : String).data = l := rfl

theorem leadsWith_self_append : ∀ (t b : List Char), leadsWith t (t ++ b) = true
  | [], _ => rfl
  | a :: as, b => by simp [leadsWith, leadsWith_self_append as b]

theorem leadsWith_mono : ∀ (t l b : List Char), leadsWith t l = true →
    leadsWith t (l ++ b) = true
  | [], _, _, _ => rfl
  | _ :: _, [], _, h => by simp [leadsWith] at h
  | w :: ws, c :: cs, b, h => by
    simp only [leadsWith, Bool.and_eq_true] at h
    simp [leadsWith, h.1, leadsWith_mono ws cs b h.2]

theorem occursIn_of_leadsWith (t l : List Char) (h : leadsWith t l = true) :
    occursIn t l = true := by
  cases l with
  | nil =>
    cases t with
    | nil => rfl
    | cons a as => simp [leadsWith] at h
  | cons c cs => simp [occursIn, h]

theorem occursIn_append_left : ∀ (a : List Char) (t b : List Char),
    occursIn t a = true → occursIn t (a ++ b) = true
  | [], t, b, h => by
    have ht : t = [] := by simpa [occursIn, List.isEmpty_iff] using h
    subst ht
    exact occursIn_of_leadsWith [] b (by cases b <;> rfl)
  | c :: cs, t, b, h => by
    simp only [occursIn, Bool.or_eq_true] at h
    rcases h with h | h
    · simpa [occursIn] using Or.inl (leadsWith_mono t (c :: cs) b h)
    · simpa [occursIn] using Or.inr (occursIn_append_left cs t b h)

theorem occursIn_mid : ∀ (a t b : List Char), occursIn t (a ++ (t ++ b)) = true
  | [], t, b => by
    simpa using occursIn_of_leadsWith t (t ++ b) (leadsWith_self_append t b)
  | c :: cs, t, b => by
    simpa [occursIn] using Or.inr (occursIn_mid cs t b)

theorem jsIncludes_append_left (s e t : String) (h : jsIncludes s t = true) :
    jsIncludes (s ++ e) t = true := by
  unfold jsIncludes at h ⊢
  rw [data_append]
  exact occursIn_append_left s.data t.data e.data h

theorem jsIncludes_self_suffix (a t : String) : jsIncludes (a ++ t) t = true := by
  unfold jsIncludes
  rw [data_append]
  simpa using occursIn_mid a.data t.data []

/-! ### Lemmas about the classifier table scan -/

theorem find_first_of_getD {α : Type} (f : α → Bool) (d : α) (l : List α) :
    ∀ (i : Nat), i < l.length → f (l.getD i d) = true →
      (∀ j, j < i → f (l.getD j d) = false) → l.find? f = some (l.getD i d) := by
  induction l with
  | nil => intro i h; simp at h
  | cons a t ih =>
    intro i hi hf hmin
    cases i with
    | zero =>
      simp only [List.getD_cons_zero] at hf ⊢
      simp [List.find?_cons, hf]
    | succ k =>
      have h0 : f a = false := by simpa using hmin 0 (Nat.succ_pos k)
      simp only [List.getD_cons_succ] at hf ⊢
      rw [List.find?_cons, h0]
      exact ih k (by simpa using hi) hf
        (fun j hj => by simpa using hmin (j + 1) (Nat.succ_lt_succ hj))

/-! ### Lemmas about the first digit run -/

theorem str_append_assoc (a b c : String) : a ++ b ++ c = a ++ (b ++ c)  := by
  cases a
  cases b
  cases c
  exact congrArg String.mk (List.append_assoc _ _ _)

theorem head?_dropWhile_false {α : Type} (p : α → Bool) :
    ∀ (l : List α), ∀ c ∈ (l.dropWhile p).head?, p c = false := by
  intro l
  induction l with
  | nil => intro c hc; simp at hc
  | cons a t ih =>
    intro c hc
    cases hp : p a with
    | true => exact ih c (by simpa [List.dropWhile_cons, hp] using hc)
    | false =>
      have hca : a = c := by simpa [List.dropWhile_cons, hp] using hc
      rw [← hca]
      exact hp

theorem firstDigitRunAux_none : ∀ (l : List Char),
    firstDigitRunAux l = none ↔ ∀ c ∈ l, c.isDigit = false := by
  intro l
  induction l with
  | nil => simp [firstDigitRunAux]
  | cons a t ih =>
    by_cases ha : a.isDigit = true
    · simp [firstDigitRunAux, ha]
    · have ha' : a.isDigit = false := by simpa using ha
      simp [firstDigitRunAux, ha', ih]

theorem firstDigitRunAux_some : ∀ (l d : List Char), firstDigitRunAux l = some d →
    ∃ pre post, l = pre ++ d ++ post ∧ d ≠ [] ∧ (∀ c ∈ d, c.isDigit = true) ∧
      (∀ c ∈ pre, c.isDigit = false) ∧ (∀ c ∈ post.head?, c.isDigit = false) := by
  intro l
  induction l with
  | nil => intro d h; simp [firstDigitRunAux] at h
  | cons a t ih =>
    intro d h
    by_cases ha : a.isDigit = true
    · have hd : d = a :: t.takeWhile Char.isDigit := by
        simpa [firstDigitRunAux, ha] using h.symm
      refine ⟨[], t.dropWhile Char.isDigit, ?_, by simp [hd], ?_, by simp, ?_⟩
      · simp [hd, List.takeWhile_append_dropWhile]
      · intro c hc
        rw [hd] at hc
        rcases List.mem_cons.mp hc with h | h
        · subst h; exact ha
        · exact List.mem_takeWhile_imp h
      · exact head?_dropWhile_false Char.isDigit t
    · have ha' : a.isDigit = false := by simpa using ha
      have h' : firstDigitRunAux t = some d := by simpa [firstDigitRunAux, ha'] using h
      obtain ⟨pre, post, heq, hne, hdig, hpre, hpost⟩ := ih d h'
      refine ⟨a :: pre, post, by simp [heq], hne, hdig, ?_, hpost⟩
      intro c hc
      rcases List.mem_cons.mp hc with h | h
      · subst h; exact ha'
      · exact hpre c h

/-! ### Claims C3, C4, C5: intent classification and the complete intent -/

/-- Claim C3: classification is total and order-deterministic — for every
query, the produced intent is the one of the least-index trigger pattern
(in the fixed declaration order of `TASK_PATTERNS`) whose pattern matches
the start of the query, so when two or more distinct triggers match, the
earlier-declared intent always wins. -/
theorem c3_intent_order_determinism (input : String) (i : Nat)
    (hi : i < TASK_PATTERNS.length)
    (hmatch : patternTest (TASK_PATTERNS.getD i ("", [])).2 input = true)
    (hmin : ∀ j, j < i → patternTest (TASK_PATTERNS.getD j ("", [])).2 input = false) :
    classify input =
      ⟨(TASK_PATTERNS.getD i ("", [])).1,
       stripMatch (TASK_PATTERNS.getD i ("", [])).2 input⟩ := by
  unfold classify
  rw [find_first_of_getD (fun p => patternTest p.2 input) ("", []) TASK_PATTERNS i hi
    hmatch hmin]

/-- Witness for C3: `"show x"` matches the `list` trigger (index 1) and no
earlier trigger, so it classifies as `list` with residual `"x"`. -/
theorem c3_intent_order_determinism_witness : classify "show x" = ⟨"list", "x"⟩ := by
  have h := c3_intent_order_determinism "show x" 1 (by decide) (by decide)
    (fun j hj => by
      have hj0 : j = 0 := Nat.lt_one_iff.mp hj
      subst hj0
      decide)
  rw [h]
  decide

/-- Claim C4: a query matched by none of the declared trigger patterns
classifies as intent `list` with residual text equal to the entire original
query, unchanged. -/
theorem c4_default_intent (input : String)
    (h : ∀ p ∈ TASK_PATTERNS, patternTest p.2 input = false) :
    classify input = ⟨"list", input⟩ := by
  unfold classify
  rw [List.find?_eq_none.mpr (fun p hp => by simp [h p hp])]

/-- Witness for C4: `"zzz hello"` matches no trigger and classifies as
`list` with the input unchanged. -/
theorem c4_default_intent_witness : classify "zzz hello" = ⟨"list", "zzz hello"⟩ :=
  c4_default_intent "zzz hello" (by decide)

/-- Claim C5: the `complete` intent always synthesizes verb `done`; with no
digit in the residual text the argument is the literal `"1"`, and with a
digit present the argument is the first maximal digit run of the residual
text (all digits, preceded by digit-free text, followed by a non-digit or
the end). -/
theorem c5_complete_synthesis (a : String) (cx : ProjectContext) :
    (synthesize "complete" a cx).action = "done" ∧
    ((∀ c ∈ a.data, c.isDigit = false) → (synthesize "complete" a cx).args = "1") ∧
    (∀ d, firstDigitRun a = some d →
      (synthesize "complete" a cx).args = d ∧
      ∃ pre post, a.data = pre ++ d.data ++ post ∧ d.data ≠ [] ∧
        (∀ c ∈ d.data, c.isDigit = true) ∧ (∀ c ∈ pre, c.isDigit = false) ∧
        (∀ c ∈ post.head?, c.isDigit = false)) := by
  have hsyn : synthesize "complete" a cx =
      (match firstDigitRun a with
       | some d => ⟨"done", d⟩
       | none => ⟨"done", "1"⟩) := rfl
  refine ⟨?_, ?_, ?_⟩
  · rcases h : firstDigitRun a with _ | d <;> simp [hsyn, h]
  · intro hnone
    have : firstDigitRunAux a.data = none := (firstDigitRunAux_none a.data).mpr hnone
    simp [hsyn, firstDigitRun, this]
  · intro d hd
    have hargs : (synthesize "complete" a cx).args = d := by simp [hsyn, hd]
    refine ⟨hargs, ?_⟩
    obtain ⟨l, hl, hld⟩ : ∃ l, firstDigitRunAux a.data = some l ∧ (⟨l⟩ : String) = d := by
      unfold firstDigitRun at hd
      rcases h : firstDigitRunAux a.data with _ | l
      · simp [h] at hd
      · exact ⟨l, rfl, by simpa [h] using hd⟩
    have hdl : d.data = l := by rw [← hld]
    obtain ⟨pre, post, heq, hne, hdig, hpre, hpost⟩ := firstDigitRunAux_some a.data l hl
    exact ⟨pre, post, by rwa [hdl], by rwa [hdl], by rwa [hdl], hpre, hpost⟩

/-- Witness for C5: `"with task 5"` yields argument `"5"`, `"all"` yields
the default `"1"`, both with verb `done`. -/
theorem c5_complete_synthesis_witness :
    (synthesize "complete" "with task 5" {}).action = "done" ∧
    (synthesize "complete" "with task 5" {}).args = "5" ∧
    (synthesize "complete" "all" {}).args = "1" := by
  refine ⟨(c5_complete_synthesis "with task 5" {}).1, ?_, ?_⟩
  · exact ((c5_complete_synthesis "with task 5" {}).2.2 "5" (by decide)).1
  · exact (c5_complete_synthesis "all" {}).2.1 (by decide)

/-! ### Claim C9: idempotence of enhanceTaskDescription -/

theorem jsIncludes_marker_mid (w p : String) :
    jsIncludes (w ++ " project:" ++ p) "project:" = true := by
  have hsplit : (" project:" : String) = " " ++ "project:" := rfl
  have h1 : w ++ " project:" ++ p = (w ++ " ") ++ "project:" ++ p := by
    rw [hsplit, ← str_append_assoc]
  rw [h1]
  exact jsIncludes_append_left _ p _ (jsIncludes_self_suffix (w ++ " ") "project:")

theorem enhance_eq (ctx : ProjectContext) (d : String) :
    enhanceTaskDescription ctx d =
      (let w := if jsTruthy ctx.currentTicket &&
          !(jsIncludes d (getStr ctx.currentTicket)) then
          d ++ " +" ++ getStr ctx.currentTicket
        else d
       if jsTruthy ctx.currentProject && !(jsIncludes d "project:") then
         w ++ " project:" ++ getStr ctx.currentProject
       else w) := rfl

theorem enhance_contains_ticket (ctx : ProjectContext) (d : String)
    (ht : jsTruthy ctx.currentTicket = true) :
    jsIncludes (enhanceTaskDescription ctx d) (getStr ctx.currentTicket) = true := by
  rw [enhance_eq]
  cases hd : jsIncludes d (getStr ctx.currentTicket) with
  | true =>
    cases hB : jsTruthy ctx.currentProject && !(jsIncludes d "project:") with
    | true =>
      simp only [ht, hd, hB, Bool.not_true, Bool.and_false, Bool.false_eq_true, if_false,
        if_true]
      exact jsIncludes_append_left _ _ _ (jsIncludes_append_left d " project:" _ hd)
    | false =>
      simp only [ht, hd, hB, Bool.not_true, Bool.and_false, Bool.false_eq_true, if_false]
  | false =>
    have hw : jsIncludes (d ++ " +" ++ getStr ctx.currentTicket)
        (getStr ctx.currentTicket) = true := jsIncludes_self_suffix (d ++ " +") _
    cases hB : jsTruthy ctx.currentProject && !(jsIncludes d "project:") with
    | true =>
      simp only [ht, hd, hB, Bool.not_false, Bool.and_true, if_true]
      exact jsIncludes_append_left _ _ _ (jsIncludes_append_left _ " project:" _ hw)
    | false =>
      simpa only [ht, hd, hB, Bool.not_false, Bool.and_true, Bool.false_eq_true, if_false,
        if_true] using hw

theorem enhance_contains_marker (ctx : ProjectContext) (d : String)
    (hp : jsTruthy ctx.currentProject = true) :
    jsIncludes (enhanceTaskDescription ctx d) "project:" = true := by
  rw [enhance_eq]
  cases hd : jsIncludes d "project:" with
  | true =>
    cases hA : jsTruthy ctx.currentTicket && !(jsIncludes d (getStr ctx.currentTicket)) with
    | true =>
      simp only [hp, hd, hA, Bool.not_true, Bool.and_false, Bool.false_eq_true, if_false,
        if_true]
      exact jsIncludes_append_left _ _ _ (jsIncludes_append_left d " +" _ hd)
    | false =>
      simp only [hp, hd, hA, Bool.not_true, Bool.and_false, Bool.false_eq_true, if_false]
  | false =>
    cases hA : jsTruthy ctx.currentTicket && !(jsIncludes d (getStr ctx.currentTicket)) with
    | true =>
      simp only [hp, hd, hA, Bool.not_false, Bool.and_true, if_true]
      exact jsIncludes_marker_mid _ _
    | false =>
      simp only [hp, hd, hA, Bool.not_false, Bool.and_true, Bool.false_eq_true, if_false,
        if_true]
      exact jsIncludes_marker_mid _ _

theorem enhance_fixed (ctx : ProjectContext) (x : String)
    (hT : jsTruthy ctx.currentTicket = true →
      jsIncludes x (getStr ctx.currentTicket) = true)
    (hP : jsTruthy ctx.currentProject = true → jsIncludes x "project:" = true) :
    enhanceTaskDescription ctx x = x := by
  unfold enhanceTaskDescription
  cases ht : jsTruthy ctx.currentTicket <;> cases hp : jsTruthy ctx.currentProject <;>
    simp [ht, hp, hT, hP]

/-- Claim C9: `enhanceTaskDescription` is idempotent — for every description
and every context, applying it to its own output yields the same string as
applying it once (after one application the ticket tag and project marker
are always substring-present whenever their context fields are truthy). -/
theorem c9_enhance_idempotent (ctx : ProjectContext) (d : String) :
    enhanceTaskDescription ctx (enhanceTaskDescription ctx d) =
      enhanceTaskDescription ctx d :=
  enhance_fixed ctx (enhanceTaskDescription ctx d)
    (fun ht => enhance_contains_ticket ctx d ht)
    (fun hp => enhance_contains_marker ctx d hp)

/-! ### Claim C10: output normalization -/

/-- Claim C10: for the `list` and `next` intents, when the collection loop
gathers at least one task row the result is a `Current tasks:` block of
exactly those rows joined by line breaks, and otherwise the raw output is
returned unchanged; for every other intent the raw output is returned
unchanged. -/
theorem c10_format_output (output action : String) :
    formatOutput output action =
      if (action == "list" || action == "next") && !(collectedRows output).isEmpty then
        "Current tasks:\n" ++ String.intercalate "\n" (collectedRows output)
      else output := by
  unfold formatOutput
  cases h : (action == "list" || action == "next") with
  | false => simp [h]
  | true =>
    cases hr : collectedRows output with
    | nil => simp [h, hr]
    | cons r rs => simp [h, hr]

/-! ### Trim idempotence and non-emptiness lemmas -/

theorem dropWhile_head_false_id {α : Type} (p : α → Bool) (l : List α)
    (h : ∀ c ∈ l.head?, p c = false) : l.dropWhile p = l := by
  cases l with
  | nil => rfl
  | cons a t =>
    have ha : p a = false := h a (by simp)
    simp [List.dropWhile_cons, ha]

theorem dropWhile_dropWhile {α : Type} (p : α → Bool) (l : List α) :
    (l.dropWhile p).dropWhile p = l.dropWhile p :=
  dropWhile_head_false_id p _ (head?_dropWhile_false p l)

theorem dropWhile_suffix_decomp {α : Type} (p : α → Bool) (l : List α) :
    ∃ pre, l = pre ++ l.dropWhile p := by
  induction l with
  | nil => exact ⟨[], rfl⟩
  | cons a t ih =>
    cases hp : p a with
    | true =>
      obtain ⟨pre, hpre⟩ := ih
      exact ⟨a :: pre, by simp [List.dropWhile_cons, hp, ← hpre]⟩
    | false => exact ⟨[], by simp [List.dropWhile_cons, hp]⟩

theorem trimL_idem (l : List Char) :
    ((((((l.dropWhile Char.isWhitespace).reverse.dropWhile
        Char.isWhitespace).reverse).dropWhile Char.isWhitespace).reverse).dropWhile
      Char.isWhitespace).reverse =
    ((l.dropWhile Char.isWhitespace).reverse.dropWhile Char.isWhitespace).reverse := by
  set p := Char.isWhitespace with hp
  set a := l.dropWhile p with ha
  set b := a.reverse.dropWhile p with hb
  have hgb : b.dropWhile p = b := by rw [hb]; exact dropWhile_dropWhile p a.reverse
  have hstep1 : b.reverse.dropWhile p = b.reverse := by
    apply dropWhile_head_false_id
    intro c hc
    rw [List.head?_reverse] at hc
    have hc0 : b.getLast? = some c := hc
    obtain ⟨pre, hpre⟩ := dropWhile_suffix_decomp p a.reverse
    have h1 : (pre ++ b).getLast? = some c := by
      rw [List.getLast?_append, hc0]
      rfl
    have h2 : a.head? = some c := by
      rw [← List.getLast?_reverse, hpre, h1]
    have hmem : c ∈ (l.dropWhile p).head? := by rw [← ha, h2]; rfl
    exact head?_dropWhile_false p l c hmem
  rw [hstep1, List.reverse_reverse, hgb]

theorem jsTrim_idem (s : String) : jsTrim (jsTrim s) = jsTrim s :=
  congrArg String.mk (trimL_idem s.data)

theorem execCmdResult_trim (r : Option String) :
    jsTrim (execCmdResult r) = execCmdResult r := by
  cases r with
  | none => rfl
  | some out => exact jsTrim_idem out

theorem append_ne_empty_right (a b : String) (hb : b ≠ "") : a ++ b ≠ "" := by
  intro h
  apply hb
  have hd := congrArg String.data h
  rw [data_append] at hd
  have hbd : b.data = [] := (List.append_eq_nil.mp hd).2
  exact congrArg String.mk hbd

theorem joinPath_ne_empty (a b : String) (hb : b ≠ "") : joinPath a b ≠ "" := by
  unfold joinPath
  cases h : (a == "") with
  | true => simpa [h] using hb
  | false =>
    simp only [h, Bool.false_eq_true, if_false]
    exact append_ne_empty_right (a ++ "/") b hb

theorem lastComponentOr_ne_empty (s : String) : lastComponentOr s ≠ "" := by
  unfold lastComponentOr
  cases h : (splitOnChar '/' s.data).getLast? with
  | none => simp only [h]; decide
  | some x =>
    simp only [h]
    cases hx : x.isEmpty with
    | true => simp only [hx, if_true]; decide
    | false =>
      simp only [hx, Bool.false_eq_true, if_false]
      intro heq
      have hxd := congrArg String.data heq
      simp only [mk_data] at hxd
      rw [hxd] at hx
      simp at hx

/-! ### Claim C1: the project-scope filter versus the fallback chain -/

/-- Counterexample to claim C1: in an environment whose marker file trims to
the empty string and whose branch is `DRX-1`, detection yields a context
with `currentTicket = "DRX-1"`; the scoping fallback chain
(`formatTaskwarriorProject`) returns `"DRX-1"`, yet the synthesized `next`
command carries an empty filter that does not mention the ticket — the
filter is not computed via the chain. -/
theorem c1_counterexample :
    detectContext fsC1 {} = Except.ok ctxC1 ∧
    formatTaskwarriorProject ctxC1 = "DRX-1" ∧
    parseNaturalLanguage fsC1 {} "next" = Except.ok ⟨"next", ""⟩ ∧
    jsIncludes "" "DRX-1" = false :=
  ⟨rfl, rfl, rfl, rfl⟩

/-- Claim C1, amended: for the `next` intent and the cue-free `list` intent
the synthesized filter is `project:<currentProject>` when `currentProject`
is set and non-empty, else the empty string; the Context Detector's
fallback chain (`formatTaskwarriorProject`) is not consulted, so a
ticket-only context also yields an empty filter, and an empty context
yields an empty filter. -/
theorem c1_scope_filter_amended (ctx : ProjectContext) (a : String)
    (h1 : jsIncludes a "today" = false) (h2 : jsIncludes a "now" = false)
    (h3 : jsIncludes a "urgent" = false) (h4 : jsIncludes a "high" = false)
    (h5 : jsIncludes a "project" = false) :
    (synthesize "next" a ctx).args = projectFilter ctx ∧
    (synthesize "list" a ctx).args = projectFilter ctx ∧
    (jsTruthy ctx.currentProject = false → projectFilter ctx = "") := by
  refine ⟨rfl, ?_, ?_⟩
  · have hlist : synthesize "list" a ctx = ⟨"list",
      if jsIncludes a "today" || jsIncludes a "now" then
        jsTrim ("due:today " ++ projectFilter ctx)
      else if jsIncludes a "urgent" || jsIncludes a "high" then
        jsTrim ("priority:H " ++ projectFilter ctx)
      else if jsIncludes a "project" then
        (match projectArgMatch a with
         | some tok => "project:" ++ tok
         | none => "")
      else projectFilter ctx⟩ := rfl
    rw [hlist]
    simp [h1, h2, h3, h4, h5]
  · intro h
    simp [projectFilter, h]

/-- Witness for the amended C1: a ticket-only context with residual text
`"everything"` yields empty filters for both intents. -/
theorem c1_scope_filter_amended_witness :
    (synthesize "next" "everything" ⟨some "DRX-1", none, none, none⟩).args = "" ∧
    (synthesize "list" "everything" ⟨some "DRX-1", none, none, none⟩).args = "" := by
  have h := c1_scope_filter_amended ⟨some "DRX-1", none, none, none⟩ "everything"
    rfl rfl rfl rfl rfl
  exact ⟨h.1.trans rfl, h.2.1.trans rfl⟩

/-! ### Claim C2: detectContext and raised errors -/

/-- Counterexample to claim C2: when the marker file exists but its read
rejects, `detectContext` raises instead of swallowing the failure. -/
theorem c2_counterexample : detectContext fsC2x {} = Except.error () := rfl

/-- Claim C2, amended: `detectContext` swallows every failure of the VCS
sub-steps, the state-file sub-step (including a malformed JSON state file)
and the branch sub-step and returns a Context; the one exception is the
marker file: whenever the marker file is absent or its read succeeds,
`detectContext` returns a Context value for every environment. -/
theorem c2_detect_no_raise_amended (fs : FS) (ctx : ProjectContext)
    (h : fs.fsExists (joinPath fs.cwd ".taskproject") = true →
      (fs.readFileRes (joinPath fs.cwd ".taskproject")).isSome = true) :
    isOkE (detectContext fs ctx) = true := by
  unfold detectContext
  cases h1 : detectStage1 fs ctx with
  | ok c => rfl
  | error e =>
    exfalso
    cases hex : fs.fsExists (joinPath fs.cwd ".taskproject") with
    | true =>
      obtain ⟨v, hv⟩ := Option.isSome_iff_exists.mp (h hex)
      simp only [detectStage1, hex, if_true, hv] at h1
      exact Except.noConfusion h1
    | false =>
      simp only [detectStage1, hex, Bool.false_eq_true, if_false] at h1
      split at h1 <;> exact Except.noConfusion h1

/-- Witness for the amended C2: with nothing on disk and no VCS,
`detectContext` returns a Context. -/
theorem c2_detect_no_raise_amended_witness : isOkE (detectContext fsC2w {}) = true :=
  c2_detect_no_raise_amended fsC2w {} (by decide)

/-! ### Claim C6: the non-emptiness invariant on Context fields -/

theorem fieldOkB_some (s : String) (hs : s ≠ "") : fieldOkB (some s) = true := by
  simp [fieldOkB, hs]

theorem ctxInvariantB_fields (c : ProjectContext) :
    ctxInvariantB c = true ↔
      fieldOkB c.currentTicket = true ∧ fieldOkB c.currentProject = true ∧
        fieldOkB c.workspacePath = true ∧ fieldOkB c.ticketsPath = true := by
  simp [ctxInvariantB, Bool.and_eq_true, and_assoc]

theorem detectStage1_inv (fs : FS) (ctx c : ProjectContext)
    (hctx : ctxInvariantB ctx = true) (hcwd : fs.cwd ≠ "")
    (hmarker : ∀ content, fs.readFileRes (joinPath fs.cwd ".taskproject") = some content →
      jsTrim content ≠ "")
    (h : detectStage1 fs ctx = Except.ok c) : ctxInvariantB c = true := by
  obtain ⟨hct, hcp, hwp, htp⟩ := (ctxInvariantB_fields ctx).mp hctx
  cases hex : fs.fsExists (joinPath fs.cwd ".taskproject") with
  | true =>
    cases hr : fs.readFileRes (joinPath fs.cwd ".taskproject") with
    | none =>
      simp only [detectStage1, hex, if_true, hr] at h
      exact Except.noConfusion h
    | some content =>
      simp only [detectStage1, hex, if_true, hr] at h
      injection h with h'
      rw [← h']
      apply (ctxInvariantB_fields _).mpr
      exact ⟨hct, fieldOkB_some _ (hmarker content hr), fieldOkB_some _ hcwd,
        fieldOkB_some _ (joinPath_ne_empty _ _ (by decide))⟩
  | false =>
    cases hg : (execCmdResult fs.gitToplevelRaw == "") with
    | false =>
      simp only [detectStage1, hex, Bool.false_eq_true, if_false, hg, Bool.not_false,
        if_true] at h
      injection h with h'
      rw [← h']
      apply (ctxInvariantB_fields _).mpr
      have hres : execCmdResult fs.gitToplevelRaw ≠ "" := by
        intro he
        rw [he] at hg
        simp at hg
      have hrepo : jsTrim (execCmdResult fs.gitToplevelRaw) ≠ "" := by
        rw [execCmdResult_trim]
        exact hres
      exact ⟨hct, fieldOkB_some _ (lastComponentOr_ne_empty _), fieldOkB_some _ hrepo,
        fieldOkB_some _ (joinPath_ne_empty _ _ (by decide))⟩
    | true =>
      simp only [detectStage1, hex, Bool.false_eq_true, if_false, hg, Bool.not_true] at h
      injection h with h'
      rw [← h']
      apply (ctxInvariantB_fields _).mpr
      exact ⟨hct, fieldOkB_some _ (lastComponentOr_ne_empty _), fieldOkB_some _ hcwd, htp⟩

theorem detectStage2a_inv (fs : FS) (c : ProjectContext)
    (hstate : ∀ content t, fs.parseStateTicket content = some (some t) → t ≠ "")
    (hc : ctxInvariantB c = true) : ctxInvariantB (detectStage2a fs c) = true := by
  unfold detectStage2a
  split
  · split
    · exact hc
    · next content _ =>
      split
      · exact hc
      · exact hc
      · next t hp =>
        obtain ⟨hct, hcp, hwp, htp⟩ := (ctxInvariantB_fields c).mp hc
        apply (ctxInvariantB_fields _).mpr
        exact ⟨fieldOkB_some _ (hstate content t hp), hcp, hwp, htp⟩
  · exact hc

theorem detectStage2b_inv (fs : FS) (c : ProjectContext)
    (hc : ctxInvariantB c = true) : ctxInvariantB (detectStage2b fs c) = true := by
  cases hcond : (!(execCmdResult fs.gitBranchRaw == "") &&
      ticketCodeTest (execCmdResult fs.gitBranchRaw)) with
  | false =>
    simp only [detectStage2b, hcond, Bool.false_eq_true, if_false]
    exact hc
  | true =>
    simp only [detectStage2b, hcond, if_true]
    obtain ⟨hct, hcp, hwp, htp⟩ := (ctxInvariantB_fields c).mp hc
    apply (ctxInvariantB_fields _).mpr
    have hb : execCmdResult fs.gitBranchRaw ≠ "" := by
      have hone := (Bool.and_eq_true _ _ |>.mp hcond).1
      intro he
      rw [he] at hone
      simp at hone
    have hbt : jsTrim (execCmdResult fs.gitBranchRaw) ≠ "" := by
      rw [execCmdResult_trim]
      exact hb
    exact ⟨fieldOkB_some _ hbt, hcp, hwp, htp⟩

/-- Counterexample to claim C6: `setCurrentTicket` with an empty argument
stores an empty `currentTicket`, and an existing marker file whose trimmed
contents are empty makes `detectContext` store an empty `currentProject`;
in both cases the absent-or-non-empty invariant is violated. -/
theorem c6_counterexample :
    ctxInvariantB (setCurrentTicket {} "") = false ∧
    detectContext fsC6x {} = Except.ok ⟨none, some "", some "w6", some "w6/.tickets"⟩ ∧
    ctxInvariantB ⟨none, some "", some "w6", some "w6/.tickets"⟩ = false :=
  ⟨rfl, rfl, rfl⟩

/-- Claim C6, amended: the writes preserve the absent-or-non-empty
invariant provided the value written is non-empty — concretely, whenever
the working directory is non-empty, any readable marker file trims to a
non-empty string, and every truthy state-file ticket is non-empty,
`detectContext` preserves the invariant; and `setCurrentTicket` preserves
it exactly when its argument is non-empty (an empty trimmed marker or an
empty `setCurrentTicket` argument violates it, per the counterexample). -/
theorem c6_invariant_amended (fs : FS) (ctx : ProjectContext)
    (hctx : ctxInvariantB ctx = true) (hcwd : fs.cwd ≠ "")
    (hmarker : ∀ content, fs.readFileRes (joinPath fs.cwd ".taskproject") = some content →
      jsTrim content ≠ "")
    (hstate : ∀ content t, fs.parseStateTicket content = some (some t) → t ≠ "") :
    (∀ c, detectContext fs ctx = Except.ok c → ctxInvariantB c = true) ∧
    (∀ (c : ProjectContext) (t : String), t ≠ "" → ctxInvariantB c = true →
      ctxInvariantB (setCurrentTicket c t) = true) := by
  constructor
  · intro c hc
    unfold detectContext at hc
    cases h1 : detectStage1 fs ctx with
    | error e =>
      rw [h1] at hc
      exact Except.noConfusion hc
    | ok c₁ =>
      rw [h1] at hc
      injection hc with hc'
      rw [← hc']
      exact detectStage2b_inv fs _ (detectStage2a_inv fs c₁ hstate
        (detectStage1_inv fs ctx c₁ hctx hcwd hmarker h1))
  · intro c t ht hc
    obtain ⟨hct, hcp, hwp, htp⟩ := (ctxInvariantB_fields c).mp hc
    apply (ctxInvariantB_fields _).mpr
    exact ⟨fieldOkB_some _ ht, hcp, hwp, htp⟩

/-- Witness for the amended C6: a git-based detection produces an
invariant-satisfying context, and a non-empty `setCurrentTicket` preserves
the invariant. -/
theorem c6_invariant_amended_witness :
    ctxInvariantB ⟨some "DRX-9", some "repo", some "/r/repo", some "/r/repo/.tickets"⟩ = true ∧
    ctxInvariantB (setCurrentTicket {} "DRX-2") = true := by
  have h := c6_invariant_amended fsC6w {} rfl (by decide)
    (fun content hcon => Option.noConfusion hcon)
    (fun content t hcon => Option.noConfusion hcon)
  exact ⟨h.1 _ rfl, h.2 {} "DRX-2" (by decide) rfl⟩

/-! ### Claim C7: getTicketTasks -/

/-- Counterexample to claim C7: with a notes file `"a TODO:\nb"` (the TODO
marker at the end of one line, text only on the next line), the code
returns the task `"b"` taken from the line after the marker, while no
single line of the notes file matches a TODO marker followed by text — the
per-TODO-marked-line description predicts the empty sequence. -/
theorem c7_counterexample :
    getTicketTasks fsC7x ⟨none, none, none, some "tp"⟩ "T" = Except.ok ["b"] ∧
    specTodoLineTasks "a TODO:\nb" = [] ∧
    checklistTasks "" = [] ∧
    (["b"] : List String) ≠ [] :=
  ⟨rfl, rfl, rfl, by decide⟩

/-- Claim C7, amended: `getTicketTasks` returns one task per
unchecked-checkbox line of the checklist file, followed by the TODO items
produced by scanning the whole notes file (the whitespace after a TODO
marker may cross a line break, so a marker at a line's end takes its text
from a following line), checklist items before all note items; and it
returns the empty sequence when `ticketsPath` is unset or when both files
are absent, rather than failing. -/
theorem c7_ticket_tasks_amended (fs : FS) (ctx : ProjectContext) (ticket : String) :
    (jsTruthy ctx.ticketsPath = false → getTicketTasks fs ctx ticket = Except.ok []) ∧
    (jsTruthy ctx.ticketsPath = true →
      fs.fsExists (joinPath (joinPath (getStr ctx.ticketsPath) ticket)
        "mr-checklist.md") = false →
      fs.fsExists (joinPath (joinPath (getStr ctx.ticketsPath) ticket)
        "context.md") = false →
      getTicketTasks fs ctx ticket = Except.ok []) ∧
    (∀ c1 c2, jsTruthy ctx.ticketsPath = true →
      fs.fsExists (joinPath (joinPath (getStr ctx.ticketsPath) ticket)
        "mr-checklist.md") = true →
      fs.readFileRes (joinPath (joinPath (getStr ctx.ticketsPath) ticket)
        "mr-checklist.md") = some c1 →
      fs.fsExists (joinPath (joinPath (getStr ctx.ticketsPath) ticket)
        "context.md") = true →
      fs.readFileRes (joinPath (joinPath (getStr ctx.ticketsPath) ticket)
        "context.md") = some c2 →
      getTicketTasks fs ctx ticket = Except.ok (checklistTasks c1 ++ todoTasks c2)) := by
  refine ⟨?_, ?_, ?_⟩
  · intro h
    simp [getTicketTasks, h]
  · intro h h1 h2
    simp [getTicketTasks, h, h1, h2]
  · intro c1 c2 h h1 hr1 h2 hr2
    simp [getTicketTasks, h, h1, hr1, h2, hr2]

/-- Witness for the amended C7: a two-item checklist and a one-TODO notes
file yield the checklist items followed by the note item. -/
theorem c7_ticket_tasks_amended_witness :
    getTicketTasks fsC7w ⟨none, none, none, some "tp"⟩ "T" = Except.ok ["A", "B", "C"] := by
  have h := (c7_ticket_tasks_amended fsC7w ⟨none, none, none, some "tp"⟩ "T").2.2
    "- [ ] A\n- [ ] B" "TODO: C" rfl rfl rfl rfl rfl
  exact h.trans rfl

/-! ### Claim C8: ticket-source order and precedence -/

/-- Claim C8: in `detectContext` the ticket is read first from the JSON
state file's nested `currentFocus.ticket` field, then from the VCS branch
when it matches the ticket-code pattern, and when both yield a value the
branch-derived value overwrites the state-file value in the returned
Context. -/
theorem c8_ticket_precedence (fs : FS) (ctx c₁ : ProjectContext) (content t : String)
    (h1 : detectStage1 fs ctx = Except.ok c₁)
    (hsx : fs.fsExists (statePath fs c₁) = true)
    (hsr : fs.readFileRes (statePath fs c₁) = some content)
    (hsp : fs.parseStateTicket content = some (some t))
    (hb1 : execCmdResult fs.gitBranchRaw ≠ "")
    (hb2 : ticketCodeTest (execCmdResult fs.gitBranchRaw) = true) :
    (detectStage2a fs c₁).currentTicket = some t ∧
    detectContext fs ctx = Except.ok (detectStage2b fs (detectStage2a fs c₁)) ∧
    (detectStage2b fs (detectStage2a fs c₁)).currentTicket =
      some (jsTrim (execCmdResult fs.gitBranchRaw)) := by
  have h2a : detectStage2a fs c₁ = { c₁ with currentTicket := some t } := by
    simp [detectStage2a, hsx, hsr, hsp]
  refine ⟨by rw [h2a], ?_, ?_⟩
  · unfold detectContext
    rw [h1]
    rfl
  · have hbeq : (execCmdResult fs.gitBranchRaw == "") = false := by
      simp [hb1]
    simp [detectStage2b, hbeq, hb2]

/-- Witness for C8: the state file names ticket `OLD-1`, the branch is
`DRX-99`; the state-file stage records `OLD-1` and the final context holds
the branch value `DRX-99`. -/
theorem c8_ticket_precedence_witness :
    (detectStage2a fsC8w ⟨none, some "w8", some "w8", none⟩).currentTicket = some "OLD-1" ∧
    detectContext fsC8w {} = Except.ok ⟨some "DRX-99", some "w8", some "w8", none⟩ := by
  have h := c8_ticket_precedence fsC8w {} ⟨none, some "w8", some "w8", none⟩ "S" "OLD-1"
    rfl rfl rfl rfl (by decide) (by decide)
  exact ⟨h.1, h.2.1.trans rfl⟩

end McpTw
